import Mathlib

/-!
Verification of the study-companion single-page app (`study_companion_app.jsx`).

The helper functions (`shorten`, `extractSentences`, `pickSentences`,
`makeDistractors`, `generateAISuggestions`) and the state-mutating handlers
(`generateAssessmentFromDoc`, `markAssessmentProgress`) are translated here as
pure Lean functions.  JavaScript strings are modelled by `String` (lists of
characters); each call to `Math.random()` is modelled by an oracle value:
`Math.floor(Math.random() * n)` becomes `r % n` for an arbitrary `r : Nat`
supplied by the oracle (for `n > 0` this ranges exactly over `0 .. n-1`;
independence and uniformity of the draws are captured by quantifying over the
oracle).  `Date.now()` and `new Date().toISOString()` are modelled by a `now`
parameter.  A JavaScript `undefined` string (out-of-bounds index) is modelled
by `""`, which the source only ever consumes through the falsy-coalescing
`x || fallback`, modelled by `jsOrStr`.
-/

set_option maxRecDepth 8192

namespace StudyCompanion

/-- ASCII lowercasing, modelling `String.prototype.toLowerCase` on the ASCII
inputs the rules compare against. -/
def lowerStr (s : String) : String :=
  String.mk (s.data.map Char.toLower)

/-- Whether `pat` occurs as a contiguous run inside `l`. -/
def infixOf (pat : List Char) : List Char → Bool
  | [] => pat.isEmpty
  | c :: rest => pat.isPrefixOf (c :: rest) || infixOf pat rest

/-- `s.includes(pat)` on strings. -/
def strIncludes (s pat : String) : Bool :=
  infixOf pat.data s.data

/-- JavaScript `x || fallback` for strings: `undefined` (modelled `""`) and the
empty string are falsy. -/
def jsOrStr (s fallback : String) : String :=
  if s == "" then fallback else s

/-- `sentences[i]`, with `undefined` modelled as `""`. -/
def atD (l : List String) (i : Nat) : String :=
  (l[i]?).getD ""

/-- `shorten(text, n)` from the source:
`if (!text) return "(no content)"; if (text.length <= n) return text;
return text.slice(0, n) + "...";` -/
def shorten (text : String) (n : Nat) : String :=
  if text == "" then "(no content)"
  else if text.data.length ≤ n then text
  else String.mk (text.data.take n ++ "...".data)

/-- The character class `\s` of JavaScript regular expressions (ECMAScript
WhiteSpace ∪ LineTerminator), which is also the set trimmed by `trim()`. -/
def jsWs (c : Char) : Bool :=
  c == ' ' || c == '\t' || c == '\n' || c == '\x0b' || c == '\x0c' || c == '\r' ||
  c == '\u00A0' || c == '\u1680' ||
  (decide (8192 ≤ c.toNat) && decide (c.toNat ≤ 8202)) ||
  c == '\u2028' || c == '\u2029' || c == '\u202F' || c == '\u205F' || c == '\u3000' ||
  c == '\uFEFF'

/-- The class `[.?!]` of the sentence-splitting regex. -/
def sentEnd (c : Char) : Bool :=
  c == '.' || c == '?' || c == '!'

/-- The class `[A-Z0-9]` of the sentence-splitting regex. -/
def upperDigit (c : Char) : Bool :=
  (decide (65 ≤ c.toNat) && decide (c.toNat ≤ 90)) ||
  (decide (48 ≤ c.toNat) && decide (c.toNat ≤ 57))

/-- `text.replace(/\n/g, " ")`. -/
def normalizeNl (cs : List Char) : List Char :=
  cs.map (fun c => if c == '\n' then ' ' else c)

/-- `fragment.trim()`. -/
def trimChars (cs : List Char) : List Char :=
  ((cs.dropWhile jsWs).reverse.dropWhile jsWs).reverse

/-- One left-to-right pass of `text.split(/(?<=[.?!])\s+(?=[A-Z0-9])/)`:
`acc` is the current fragment in reverse.  A maximal whitespace run whose
preceding character is `[.?!]` and whose following character is `[A-Z0-9]` is a
delimiter (the run is consumed and a fragment boundary is emitted); every other
character is appended to the current fragment.  The greedy `\s+` together with
the look-around classes force a regex match to be exactly such a maximal run.
The fuel argument only forces termination; it is never exhausted when started
at `length + 1` because every step consumes at least one input character. -/
def splitAux : Nat → List Char → List Char → List (List Char)
  | 0, rest, acc => [acc.reverse ++ rest]
  | _ + 1, [], acc => [acc.reverse]
  | fuel + 1, c :: rest, acc =>
    if sentEnd (acc.headD ' ') && jsWs c &&
        upperDigit (((c :: rest).dropWhile jsWs).headD ' ') then
      acc.reverse :: splitAux fuel ((c :: rest).dropWhile jsWs) []
    else
      splitAux fuel rest (c :: acc)

/-- `text.split(/(?<=[.?!])\s+(?=[A-Z0-9])/)` on a character list. -/
def splitRaw (cs : List Char) : List (List Char) :=
  splitAux (cs.length + 1) cs []

/-- `extractSentences(text)` from the source: early return `[]` on falsy text,
then normalize line breaks, split on the sentence-boundary regex, trim each
fragment, and drop the falsy (empty) fragments. -/
def extractSentences (text : String) : List String :=
  if text == "" then []
  else
    ((splitRaw (normalizeNl text.data)).map (fun f => String.mk (trimChars f))).filter
      (fun s => !(s == ""))

/-- `pickSentences(sentences, limit)` from the source.  The `none` argument
models a missing (`null`/`undefined`) sentence array, matching `!sentences`;
`r i` supplies the `i`-th `Math.random()` draw. -/
def pickSentences (sentences : Option (List String)) (limit : Nat) (r : Nat → Nat) :
    List String :=
  match sentences with
  | none => ["No content to generate from."]
  | some s =>
    if s.length == 0 then ["No content to generate from."]
    else (List.range limit).map (fun i => atD s (r i % s.length))

/-- `makeDistractors(seed, pool, num)` from the source.  `r i` supplies the
`i`-th `Math.random()` draw; an out-of-range pick (`undefined`, possible only
for an empty candidate list) and an empty-string pick both fall through
`|| "Review the text for details."`. -/
def makeDistractors (seed : String) (pool : List String) (num : Nat) (r : Nat → Nat) :
    List String :=
  let candidates := (pool.filter (fun p => !(p == seed))).take 20
  let distractors := (List.range num).map (fun i =>
    shorten (jsOrStr (atD candidates (r i % candidates.length)) "Review the text for details.") 80)
  shorten seed 80 :: distractors

/-- The stored profile object. -/
structure Profile where
  name : String
  institution : String
  syllabus : String
  qualification : String
  nationality : String
  learningStyle : String
deriving DecidableEq, Repr, Inhabited

/-- An uploaded document record (`uploadedAt` ISO string modelled by a tick). -/
structure Document where
  id : Nat
  name : String
  size : Nat
  text : String
  uploadedAt : Nat
  pdfStub : Bool
deriving DecidableEq, Repr, Inhabited

/-- An assessment item; short-answer items carry no `choices` key in the
source, modelled by `[]`. -/
structure Item where
  id : Nat
  type : String
  question : String
  choices : List String
  answer : String
deriving DecidableEq, Repr, Inhabited

/-- A generated assessment (`createdAt` ISO string modelled by a tick). -/
structure Assessment where
  id : Nat
  docId : Nat
  title : String
  items : List Item
  createdAt : Nat
deriving DecidableEq, Repr, Inhabited

/-- One point of the progress chart. -/
structure ProgressPoint where
  month : String
  score : Nat
deriving DecidableEq, Repr, Inhabited

/-- The component state touched by the handlers under verification. -/
structure AppState where
  profile : Profile
  documents : List Document
  assessments : List Assessment
  progressData : List ProgressPoint
  route : String
deriving DecidableEq, Repr, Inhabited

/-- `sampleProgress()` from the source. -/
def sampleProgress : List ProgressPoint :=
  [⟨"Jan", 45⟩, ⟨"Feb", 52⟩, ⟨"Mar", 58⟩, ⟨"Apr", 62⟩,
   ⟨"May", 68⟩, ⟨"Jun", 72⟩, ⟨"Jul", 75⟩, ⟨"Aug", 80⟩]

/-- `generateAssessmentFromDoc(docId, type, limit)`: looks the document up by
id (no-op when absent), extracts and samples sentences, builds the items
(`answer: choices[0]` for MCQs), and prepends the new assessment.  `rPick i`
is the `i`-th draw of `pickSentences`; `rDist i j` is the `j`-th draw of
`makeDistractors` for item `i`; `now` models `Date.now()`. -/
def generateAssessmentFromDoc (st : AppState) (docId : Nat) (type : String)
    (limit : Nat) (rPick : Nat → Nat) (rDist : Nat → Nat → Nat) (now : Nat) : AppState :=
  match st.documents.find? (fun d => d.id == docId) with
  | none => st
  | some doc =>
    let sentences := extractSentences doc.text
    let picks := pickSentences (some sentences) limit rPick
    let items := picks.enum.map (fun pr =>
      if type == "mcq" then
        let choices := makeDistractors pr.2 sentences 3 (rDist pr.1)
        { id := now + pr.1, type := "mcq",
          question := "What best explains: \"" ++ shorten pr.2 120 ++ "\"?",
          choices := choices, answer := choices.headI }
      else
        { id := now + pr.1, type := "short",
          question := "Explain: \"" ++ shorten pr.2 120 ++ "\"",
          choices := [], answer := pr.2 })
    let assessment : Assessment :=
      { id := now, docId := docId, title := "Auto Assessment - " ++ doc.name,
        items := items, createdAt := now }
    { st with assessments := assessment :: st.assessments, route := "assessments" }

/-- `newData[idx].score = Math.min(100, newData[idx].score + d)` on the copied
progress array. -/
def bumpScore : List ProgressPoint → Nat → Nat → List ProgressPoint
  | [], _, _ => []
  | p :: rest, 0, d => { p with score := min 100 (p.score + d) } :: rest
  | p :: rest, n + 1, d => p :: bumpScore rest n d

/-- `markAssessmentProgress(assessmentId)`: the argument is unused by the
source; `idx` models `Math.floor(Math.random() * newData.length)` and `d`
models `Math.floor(Math.random() * 20)`. -/
def markAssessmentProgress (st : AppState) (_assessmentId : Nat) (idx d : Nat) : AppState :=
  { st with progressData := bumpScore st.progressData idx d }

/-- Rule 1 condition: qualification mentions bachelor/undergrad. -/
def cond1 (p : Profile) : Bool :=
  strIncludes (lowerStr p.qualification) "bachelor" ||
  strIncludes (lowerStr p.qualification) "undergrad"

/-- Rule 2 condition: syllabus mentions math/calculus. -/
def cond2 (p : Profile) : Bool :=
  strIncludes (lowerStr p.syllabus) "math" || strIncludes (lowerStr p.syllabus) "calculus"

/-- Rule 3 condition: truthy nationality whose lowercasing is "india". -/
def cond3 (p : Profile) : Bool :=
  !(p.nationality == "") && (lowerStr p.nationality == "india")

/-- Rule 4 condition: falsy (empty) syllabus. -/
def cond4 (p : Profile) : Bool :=
  p.syllabus == ""

/-- Rule 5 condition: at least three documents. -/
def cond5 (documents : List Document) : Bool :=
  decide (3 ≤ documents.length)

/-- Rule 6 condition: truthy learning style. -/
def cond6 (p : Profile) : Bool :=
  !(p.learningStyle == "")

/-- `generateAISuggestions()` from the source, as a function of the `profile`
and `documents` state it reads. -/
def generateAISuggestions (profile : Profile) (documents : List Document) : List String :=
  let base0 : List String := []
  let base1 := if cond1 profile then
    base0 ++ ["Focus on conceptual depth and past-year exam patterns."] else base0
  let base2 := if cond2 profile then
    base1 ++ ["Do daily problem sets; mix timed quizzes and long-form proofs."] else base1
  let base3 := if cond3 profile then
    base2 ++ ["Balance board-style MCQs with subjective practice (common in many Indian exams)."]
    else base2
  let base4 := if cond4 profile then
    base3 ++ ["Upload a syllabus or sample notes for more tailored suggestions."] else base3
  let base5 := if cond5 documents then
    base4 ++ ["Use spaced repetition: create flashcards from each doc\x27s key facts."] else base4
  let base6 := if cond6 profile then
    base5 ++ ["Tailor materials to your learning style: " ++ profile.learningStyle ++ "."]
    else base5
  if base6.isEmpty then
    ["No profile data yet — fill in your profile for personalized suggestions."]
  else base6

/-- The six rule predicates of §4.5 indexed in evaluation order. -/
def sugCond (k : Nat) (p : Profile) (documents : List Document) : Bool :=
  match k with
  | 0 => cond1 p
  | 1 => cond2 p
  | 2 => cond3 p
  | 3 => cond4 p
  | 4 => cond5 documents
  | 5 => cond6 p
  | _ => false

/-- The string each rule appends when it fires. -/
def sugStr (k : Nat) (p : Profile) : String :=
  match k with
  | 0 => "Focus on conceptual depth and past-year exam patterns."
  | 1 => "Do daily problem sets; mix timed quizzes and long-form proofs."
  | 2 => "Balance board-style MCQs with subjective practice (common in many Indian exams)."
  | 3 => "Upload a syllabus or sample notes for more tailored suggestions."
  | 4 => "Use spaced repetition: create flashcards from each doc\x27s key facts."
  | 5 => "Tailor materials to your learning style: " ++ p.learningStyle ++ "."
  | _ => ""

/-- The block rule `k` contributes to the suggestion list. -/
def sugBlock (k : Nat) (p : Profile) (documents : List Document) : List String :=
  if sugCond k p documents then [sugStr k p] else []

/-- The suggestion list as the concatenation of the six rule blocks in rule
order. -/
def sugBlocks (p : Profile) (documents : List Document) : List String :=
  sugBlock 0 p documents ++ sugBlock 1 p documents ++ sugBlock 2 p documents ++
  sugBlock 3 p documents ++ sugBlock 4 p documents ++ sugBlock 5 p documents

/-- The fallback message when no rule fires. -/
def noProfileMsg : String :=
  "No profile data yet — fill in your profile for personalized suggestions."

/-- A match of `/(?<=[.?!])\s+(?=[A-Z0-9])/` occurs somewhere inside `f`:
a sentence-ending character followed by a nonempty whitespace run followed by
an upper-case letter or digit. -/
def HasMatch (f : List Char) : Prop :=
  ∃ a c w u b, f = a ++ c :: (w ++ u :: b) ∧ sentEnd c = true ∧ w ≠ [] ∧
    (∀ x ∈ w, jsWs x = true) ∧ upperDigit u = true

/-- `SplitSpec cs frags` says `frags` is exactly the split of `cs` at the
boundaries of `/(?<=[.?!])\s+(?=[A-Z0-9])/`: the fragments interleaved with
the dropped delimiters rebuild `cs`; every delimiter is a nonempty whitespace
run preceded (inside the previous fragment) by `[.?!]` and followed (at the
head of the remaining text) by `[A-Z0-9]`; and no fragment contains a match,
so no boundary is missed.  Delimiter maximality is forced: a fragment before a
delimiter ends in `[.?!]` and the text after it starts with `[A-Z0-9]`,
neither of which is whitespace. -/
inductive SplitSpec : List Char → List (List Char) → Prop
  | last (f : List Char) : ¬ HasMatch f → SplitSpec f [f]
  | step (f d rest : List Char) (frags : List (List Char)) :
      f ≠ [] → sentEnd (f.getLastD ' ') = true → ¬ HasMatch f →
      d ≠ [] → (∀ x ∈ d, jsWs x = true) →
      upperDigit (rest.headD ' ') = true →
      SplitSpec rest frags →
      SplitSpec (f ++ (d ++ rest)) (f :: frags)

/-- Invariant of `splitAux`: whenever the consumed fragment (`acc`, stored
reversed) ends in `[.?!]` followed by a trailing whitespace run, the first
non-whitespace character of the remaining input is not `[A-Z0-9]` (those
whitespace characters were consumed only after that lookahead failed). -/
def Pend (acc input : List Char) : Prop :=
  ∀ a c w, acc.reverse = a ++ c :: w → sentEnd c = true → w ≠ [] →
    (∀ x ∈ w, jsWs x = true) →
    upperDigit ((input.dropWhile jsWs).headD ' ') = false

/-- A concrete uploaded document used to instantiate the theorems. -/
def docW : Document :=
  ⟨1, "notes.txt", 10, "Alpha beta. Gamma delta.", 0, false⟩

/-- A concrete state with no documents. -/
def stEmpty : AppState :=
  ⟨⟨"", "", "", "", "", ""⟩, [], [], sampleProgress, "dashboard"⟩

/-- A concrete state holding `docW`. -/
def stW : AppState :=
  ⟨⟨"", "", "", "", "", ""⟩, [docW], [], sampleProgress, "upload"⟩

lemma atD_mem {l : List String} {i : Nat} (h : i < l.length) : atD l i ∈ l := by
  unfold atD
  rw [List.getElem?_eq_getElem h]
  exact List.getElem_mem h

/-- C1: for a non-empty sentence list and any `limit`, `pickSentences` returns
exactly `limit` elements, each an element of the input; for a missing (`none`)
or empty input list it returns exactly `["No content to generate from."]`
regardless of `limit`.  The independent uniform draws with replacement are
modelled by the oracle `r`: the `i`-th pick is index `r i % length`, which for
an arbitrary oracle ranges exactly over all indices. -/
theorem pickSentences_spec :
    (∀ (limit : Nat) (r : Nat → Nat),
      pickSentences none limit r = ["No content to generate from."] ∧
      pickSentences (some []) limit r = ["No content to generate from."]) ∧
    (∀ (l : List String) (limit : Nat) (r : Nat → Nat), l ≠ [] →
      (pickSentences (some l) limit r).length = limit ∧
      ∀ x ∈ pickSentences (some l) limit r, x ∈ l) := by
  refine ⟨fun limit r => ⟨rfl, rfl⟩, fun l limit r hl => ?_⟩
  have hlen : 0 < l.length := List.length_pos.mpr hl
  have hne : l.length ≠ 0 := Nat.pos_iff_ne_zero.mp hlen
  constructor
  · simp [pickSentences, hne]
  · intro x hx
    simp only [pickSentences, hne, if_neg, List.mem_map, List.mem_range,
      beq_iff_eq, if_false] at hx
    rcases hx with ⟨i, _, hxi⟩
    rw [← hxi]
    exact atD_mem (Nat.mod_lt _ hlen)

/-- Witness for C1 at a concrete non-empty list. -/
theorem pickSentences_spec_witness :
    (pickSentences (some ["a"]) 2 (fun _ => 0)).length = 2 ∧
    ∀ x ∈ pickSentences (some ["a"]) 2 (fun _ => 0), x ∈ ["a"] :=
  pickSentences_spec.2 ["a"] 2 (fun _ => 0) (by decide)

/-- C4 counterexample: at `s = ""` and `n = 0` the code returns the
placeholder `"(no content)"`, which is not `s` even though `s.length ≤ n`, and
whose length `12` exceeds `n + 3`. -/
theorem shorten_claim_counterexample :
    ("" : String).length ≤ 0 ∧ shorten "" 0 ≠ "" ∧ ¬ (shorten "" 0).length ≤ 0 + 3 := by
  decide

/-- C4 (amended): empty content maps to `"(no content)"`; for every
*non-empty* string `s` and cap `n`, `shorten s n` has length at most `n + 3`
(3 being the length of the appended `"..."`) and equals `s` whenever
`s.length ≤ n`. -/
theorem shorten_spec :
    (∀ n : Nat, shorten "" n = "(no content)") ∧
    (∀ (s : String) (n : Nat), s ≠ "" →
      (shorten s n).length ≤ n + 3 ∧ (s.length ≤ n → shorten s n = s)) := by
  refine ⟨fun n => rfl, fun s n hs => ?_⟩
  have hbeq : (s == "") = false := by simp [hs]
  have hlen : s.length = s.data.length := rfl
  constructor
  · unfold shorten
    rw [hbeq]
    simp only [Bool.false_eq_true, if_false]
    by_cases hn : s.data.length ≤ n
    · rw [if_pos hn]
      calc s.length = s.data.length := hlen
        _ ≤ n := hn
        _ ≤ n + 3 := Nat.le_add_right n 3
    · rw [if_neg hn]
      have hmk : (String.mk (s.data.take n ++ "...".data)).length =
          (s.data.take n ++ "...".data).length := rfl
      have h3 : ("...".data).length = 3 := by decide
      rw [hmk, List.length_append, List.length_take, h3]
      have : min n s.data.length ≤ n := Nat.min_le_left n s.data.length
      omega
  · intro hsn
    unfold shorten
    rw [hbeq]
    simp only [Bool.false_eq_true, if_false]
    rw [if_pos (hlen ▸ hsn)]

/-- Witness for C4 (amended) at `s = "ab"`, `n = 3`. -/
theorem shorten_spec_witness :
    (shorten "ab" 3).length ≤ 3 + 3 ∧ shorten "ab" 3 = "ab" :=
  ⟨(shorten_spec.2 "ab" 3 (by decide)).1, (shorten_spec.2 "ab" 3 (by decide)).2 (by decide)⟩

/-- C6: `extractSentences` is total (a Lean function by construction, matching
the no-throw contract), never returns an empty-string element, and returns
`[]` on empty input. -/
theorem extractSentences_no_empty :
    (∀ (text : String) (s : String), s ∈ extractSentences text → s ≠ "") ∧
    extractSentences "" = [] := by
  constructor
  · intro text s hs
    unfold extractSentences at hs
    split at hs
    · exact absurd hs (List.not_mem_nil s)
    · have := (List.mem_filter.mp hs).2
      simpa using this
  · rfl

/-- Witness for C6 at a concrete input and element. -/
theorem extractSentences_no_empty_witness : ("Hi there." : String) ≠ "" :=
  extractSentences_no_empty.1 "Hi there." "Hi there." (by decide)

/-- C8: when no stored document has id `docId`, `generateAssessmentFromDoc`
returns the state unchanged: no assessment is created and documents, profile,
and progress data are untouched. -/
theorem generateAssessmentFromDoc_missing_noop (st : AppState) (docId : Nat)
    (type : String) (limit : Nat) (rPick : Nat → Nat) (rDist : Nat → Nat → Nat)
    (now : Nat) (h : st.documents.find? (fun d => d.id == docId) = none) :
    generateAssessmentFromDoc st docId type limit rPick rDist now = st := by
  unfold generateAssessmentFromDoc
  rw [h]

/-- Witness for C8 at a concrete state with no documents. -/
theorem generateAssessmentFromDoc_missing_noop_witness :
    generateAssessmentFromDoc stEmpty 42 "mcq" 5 (fun _ => 0) (fun _ _ => 0) 7 = stEmpty :=
  generateAssessmentFromDoc_missing_noop stEmpty 42 "mcq" 5 (fun _ => 0) (fun _ _ => 0) 7 rfl

lemma bumpScore_length (l : List ProgressPoint) (idx d : Nat) :
    (bumpScore l idx d).length = l.length := by
  induction l generalizing idx with
  | nil => rfl
  | cons p rest ih =>
    cases idx with
    | zero => rfl
    | succ n => simp [bumpScore, ih]

lemma bumpScore_getElem_ne (l : List ProgressPoint) (idx d j : Nat) (h : j ≠ idx) :
    (bumpScore l idx d)[j]? = l[j]? := by
  induction l generalizing idx j with
  | nil => rfl
  | cons p rest ih =>
    cases idx with
    | zero =>
      cases j with
      | zero => exact absurd rfl h
      | succ m => simp [bumpScore]
    | succ n =>
      cases j with
      | zero => simp [bumpScore]
      | succ m => simpa [bumpScore] using ih n m (by omega)

lemma bumpScore_getElem_eq (l : List ProgressPoint) (idx d : Nat) :
    (bumpScore l idx d)[idx]? =
      l[idx]?.map (fun p => { p with score := min 100 (p.score + d) }) := by
  induction l generalizing idx with
  | nil => rfl
  | cons p rest ih =>
    cases idx with
    | zero => simp [bumpScore]
    | succ n => simpa [bumpScore] using ih n

/-- C9: for any `assessmentId`, `markAssessmentProgress` leaves assessments,
documents and profile untouched; it keeps the progress series the same length,
changes no entry other than the randomly drawn index `idx`, replaces that
entry's score by `min 100 (score + d)` (keeping its month label), and every
score that starts at most 100 stays at most 100.  `idx` and `d` model the two
`Math.random()` draws, so `idx < length` and `d ≤ 19`. -/
theorem markAssessmentProgress_frame (st : AppState) (assessmentId idx d : Nat)
    (hidx : idx < st.progressData.length) (_hd : d ≤ 19) :
    (markAssessmentProgress st assessmentId idx d).assessments = st.assessments ∧
    (markAssessmentProgress st assessmentId idx d).documents = st.documents ∧
    (markAssessmentProgress st assessmentId idx d).profile = st.profile ∧
    (markAssessmentProgress st assessmentId idx d).progressData.length =
      st.progressData.length ∧
    (∀ j : Nat, j ≠ idx →
      (markAssessmentProgress st assessmentId idx d).progressData[j]? =
        st.progressData[j]?) ∧
    (∃ p : ProgressPoint, st.progressData[idx]? = some p ∧
      (markAssessmentProgress st assessmentId idx d).progressData[idx]? =
        some { p with score := min 100 (p.score + d) }) ∧
    (∀ (j : Nat) (p q : ProgressPoint), st.progressData[j]? = some p →
      (markAssessmentProgress st assessmentId idx d).progressData[j]? = some q →
      p.score ≤ 100 → q.score ≤ 100) := by
  have hmark : (markAssessmentProgress st assessmentId idx d).progressData =
      bumpScore st.progressData idx d := rfl
  refine ⟨rfl, rfl, rfl, ?_, ?_, ?_, ?_⟩
  · rw [hmark]
    exact bumpScore_length _ idx d
  · intro j hj
    rw [hmark]
    exact bumpScore_getElem_ne _ idx d j hj
  · obtain ⟨p, hp⟩ : ∃ p, st.progressData[idx]? = some p := by
      rw [List.getElem?_eq_getElem hidx]
      exact ⟨_, rfl⟩
    refine ⟨p, hp, ?_⟩
    rw [hmark, bumpScore_getElem_eq, hp]
    rfl
  · intro j p q hp hq hple
    rw [hmark] at hq
    rcases eq_or_ne j idx with heq | hne
    · subst heq
      rw [bumpScore_getElem_eq, hp] at hq
      have hq2 : q = { p with score := min 100 (p.score + d) } := by
        injection hq with h
        exact h.symm
      rw [hq2]
      exact Nat.min_le_left 100 (p.score + d)
    · rw [bumpScore_getElem_ne _ idx d j hne, hp] at hq
      injection hq with h
      rw [← h]
      exact hple

/-- Witness for C9 on the seed progress series, `idx = 0`, `d = 5`. -/
theorem markAssessmentProgress_frame_witness :
    (markAssessmentProgress stEmpty 3 0 5).assessments = stEmpty.assessments ∧
    (markAssessmentProgress stEmpty 3 0 5).documents = stEmpty.documents ∧
    (markAssessmentProgress stEmpty 3 0 5).profile = stEmpty.profile ∧
    (markAssessmentProgress stEmpty 3 0 5).progressData.length =
      stEmpty.progressData.length ∧
    (∀ j : Nat, j ≠ 0 →
      (markAssessmentProgress stEmpty 3 0 5).progressData[j]? =
        stEmpty.progressData[j]?) ∧
    (∃ p : ProgressPoint, stEmpty.progressData[0]? = some p ∧
      (markAssessmentProgress stEmpty 3 0 5).progressData[0]? =
        some { p with score := min 100 (p.score + 5) }) ∧
    (∀ (j : Nat) (p q : ProgressPoint), stEmpty.progressData[j]? = some p →
      (markAssessmentProgress stEmpty 3 0 5).progressData[j]? = some q →
      p.score ≤ 100 → q.score ≤ 100) :=
  markAssessmentProgress_frame stEmpty 3 0 5 (by decide) (by decide)

lemma makeDistractors_length (seed : String) (pool : List String) (num : Nat)
    (r : Nat → Nat) : (makeDistractors seed pool num r).length = num + 1 := by
  simp [makeDistractors]

lemma generateAssessmentFromDoc_found (st : AppState) (docId : Nat) (type : String)
    (limit : Nat) (rPick : Nat → Nat) (rDist : Nat → Nat → Nat) (now : Nat)
    (doc : Document) (hdoc : st.documents.find? (fun d => d.id == docId) = some doc) :
    (generateAssessmentFromDoc st docId type limit rPick rDist now).assessments =
      { id := now, docId := docId, title := "Auto Assessment - " ++ doc.name,
        items := (pickSentences (some (extractSentences doc.text)) limit rPick).enum.map
          (fun pr =>
            if type == "mcq" then
              let choices := makeDistractors pr.2 (extractSentences doc.text) 3 (rDist pr.1)
              { id := now + pr.1, type := "mcq",
                question := "What best explains: \"" ++ shorten pr.2 120 ++ "\"?",
                choices := choices, answer := choices.headI }
            else
              { id := now + pr.1, type := "short",
                question := "Explain: \"" ++ shorten pr.2 120 ++ "\"",
                choices := [], answer := pr.2 }),
        createdAt := now } :: st.assessments := by
  unfold generateAssessmentFromDoc
  rw [hdoc]

/-- C10: `makeDistractors` with `num = 3` always returns exactly four strings:
the 80-character-truncated seed first, then exactly three distractors; when
the pool has no sentence different from the seed every distractor is the
fallback `"Review the text for details."`; hence every assessment produced by
an `"mcq"` generation has items whose `choices` list has length exactly 4. -/
theorem makeDistractors_four_choices :
    (∀ (seed : String) (pool : List String) (r : Nat → Nat),
      (makeDistractors seed pool 3 r).length = 4 ∧
      (makeDistractors seed pool 3 r).head? = some (shorten seed 80) ∧
      (pool.filter (fun p => !(p == seed)) = [] →
        makeDistractors seed pool 3 r =
          [shorten seed 80, "Review the text for details.",
           "Review the text for details.", "Review the text for details."])) ∧
    (∀ (st : AppState) (docId limit : Nat) (rPick : Nat → Nat)
      (rDist : Nat → Nat → Nat) (now : Nat) (a : Assessment),
      a ∈ (generateAssessmentFromDoc st docId "mcq" limit rPick rDist now).assessments →
      a ∈ st.assessments ∨ ∀ it ∈ a.items, it.choices.length = 4) := by
  constructor
  · intro seed pool r
    refine ⟨makeDistractors_length seed pool 3 r, by simp [makeDistractors], ?_⟩
    intro hfilter
    have hfb : shorten "Review the text for details." 80 =
        "Review the text for details." := by decide
    unfold makeDistractors
    rw [hfilter]
    simp [atD, jsOrStr, hfb, List.range_succ]
  · intro st docId limit rPick rDist now a ha
    cases hfind : st.documents.find? (fun d => d.id == docId) with
    | none =>
      left
      unfold generateAssessmentFromDoc at ha
      rw [hfind] at ha
      exact ha
    | some doc =>
      rw [generateAssessmentFromDoc_found st docId "mcq" limit rPick rDist now doc hfind]
        at ha
      rcases List.mem_cons.mp ha with heq | hmem
      · right
        intro it hit
        rw [heq] at hit
        simp only [List.mem_map] at hit
        obtain ⟨pr, _, hpr⟩ := hit
        rw [← hpr]
        simp [makeDistractors_length]
      · exact Or.inl hmem

/-- Witness for C10 on a pool whose only sentence is the seed itself. -/
theorem makeDistractors_four_choices_witness :
    makeDistractors "X" ["X"] 3 (fun _ => 0) =
      [shorten "X" 80, "Review the text for details.",
       "Review the text for details.", "Review the text for details."] :=
  (makeDistractors_four_choices.1 "X" ["X"] (fun _ => 0)).2.2 (by decide)

/-- C2: every item of an assessment generated with type `"mcq"` has its
`answer` equal to the first element of its `choices`, and that first element
is `shorten s 80` for the seed sentence `s` the item was built from. -/
theorem mcq_answer_first_choice (st : AppState) (docId limit : Nat)
    (rPick : Nat → Nat) (rDist : Nat → Nat → Nat) (now : Nat) (doc : Document)
    (hdoc : st.documents.find? (fun d => d.id == docId) = some doc) (it : Item)
    (hit : it ∈ ((generateAssessmentFromDoc st docId "mcq" limit rPick rDist
      now).assessments.headI).items) :
    it.choices.head? = some it.answer ∧
    ∃ s ∈ pickSentences (some (extractSentences doc.text)) limit rPick,
      it.answer = shorten s 80 := by
  rw [generateAssessmentFromDoc_found st docId "mcq" limit rPick rDist now doc hdoc]
    at hit
  rw [List.headI_cons] at hit
  simp only [List.mem_map] at hit
  obtain ⟨pr, hmem, hpr⟩ := hit
  have hs : pr.2 ∈ pickSentences (some (extractSentences doc.text)) limit rPick :=
    List.snd_mem_of_mem_enum hmem
  refine ⟨?_, pr.2, hs, ?_⟩
  · rw [← hpr]
    simp [makeDistractors]
  · rw [← hpr]
    simp [makeDistractors]

/-- Witness for C2 on a concrete two-sentence document. -/
theorem mcq_answer_first_choice_witness :
    (((generateAssessmentFromDoc stW 1 "mcq" 1 (fun _ => 0) (fun _ _ => 0)
        5).assessments.headI).items.headI).choices.head? =
      some (((generateAssessmentFromDoc stW 1 "mcq" 1 (fun _ => 0) (fun _ _ => 0)
        5).assessments.headI).items.headI).answer ∧
    ∃ s ∈ pickSentences (some (extractSentences docW.text)) 1 (fun _ => 0),
      (((generateAssessmentFromDoc stW 1 "mcq" 1 (fun _ => 0) (fun _ _ => 0)
        5).assessments.headI).items.headI).answer = shorten s 80 :=
  mcq_answer_first_choice stW 1 1 (fun _ => 0) (fun _ _ => 0) 5 docW (by decide)
    _ (by decide)

lemma generateAISuggestions_eq (p : Profile) (documents : List Document) :
    generateAISuggestions p documents =
      if sugBlocks p documents = [] then [noProfileMsg] else sugBlocks p documents := by
  cases h1 : cond1 p <;> cases h2 : cond2 p <;> cases h3 : cond3 p <;>
    cases h4 : cond4 p <;> cases h5 : cond5 documents <;> cases h6 : cond6 p <;>
    simp [generateAISuggestions, sugBlocks, sugBlock, sugCond, sugStr, noProfileMsg,
      h1, h2, h3, h4, h5, h6]

/-- C7: `generateAISuggestions` is the concatenation, in the fixed rule order
of §4.5, of one block per rule (the rule's single string when its predicate
holds, nothing otherwise), with the generic no-profile-data message returned
exactly when no rule fires; in particular the two examples from §8 hold. -/
theorem generateAISuggestions_rule_order :
    (∀ (p : Profile) (documents : List Document),
      generateAISuggestions p documents =
        if sugBlocks p documents = [] then [noProfileMsg]
        else sugBlocks p documents) ∧
    generateAISuggestions ⟨"", "", "", "Bachelor of Science", "India", ""⟩ [] =
      ["Focus on conceptual depth and past-year exam patterns.",
       "Balance board-style MCQs with subjective practice (common in many Indian exams).",
       "Upload a syllabus or sample notes for more tailored suggestions."] ∧
    generateAISuggestions ⟨"", "", "", "", "", ""⟩ (List.replicate 5 docW) =
      ["Upload a syllabus or sample notes for more tailored suggestions.",
       "Use spaced repetition: create flashcards from each doc\x27s key facts."] :=
  ⟨generateAISuggestions_eq, by decide, by decide⟩

/-- C3 counterexample: starting from the empty profile (no documents), the
output is exactly the upload-syllabus string; changing the single field
`syllabus` from `""` to `"math"` newly satisfies rule 2, yet the new output no
longer contains the upload-syllabus string that was present before — the
claimed per-rule monotonicity fails because rules 2 and 4 both read
`syllabus`. -/
theorem suggestions_monotone_counterexample :
    cond2 ⟨"", "", "", "", "", ""⟩ = false ∧
    cond2 ⟨"", "", "math", "", "", ""⟩ = true ∧
    generateAISuggestions ⟨"", "", "", "", "", ""⟩ [] =
      ["Upload a syllabus or sample notes for more tailored suggestions."] ∧
    "Upload a syllabus or sample notes for more tailored suggestions." ∉
      generateAISuggestions ⟨"", "", "math", "", "", ""⟩ [] := by
  decide

lemma sugBlock_congr {k : Nat} {p q : Profile} {docs docsq : List Document}
    (hc : sugCond k q docsq = sugCond k p docs) (hs : sugStr k q = sugStr k p) :
    sugBlock k q docsq = sugBlock k p docs := by
  unfold sugBlock
  rw [hc, hs]

/-- C3 (amended): if making rule `k` newly satisfied leaves every other
rule's predicate value and string unchanged (the original claim's independence
assumption, which the code violates for single-field edits to `syllabus`
because rules 2 and 4 both read it), and at least one rule fired before the
change, then the new suggestion list is the old one with exactly rule `k`'s
string inserted at rule `k`'s position — nothing is removed.  Without the
at-least-one-rule clause the generic no-profile-data message is removed, and
without the independence clause a single-field change can drop another rule's
string (see the counterexample). -/
theorem suggestions_single_rule_amended (p q : Profile)
    (docs docsq : List Document) (k : Nat) (hk : k < 6)
    (hothers : ∀ j, j < 6 → j ≠ k →
      sugCond j q docsq = sugCond j p docs ∧ sugStr j q = sugStr j p)
    (hkoff : sugCond k p docs = false) (hkon : sugCond k q docsq = true)
    (hfired : sugBlocks p docs ≠ []) :
    ∃ l1 l2, generateAISuggestions p docs = l1 ++ l2 ∧
      generateAISuggestions q docsq = l1 ++ sugStr k q :: l2 := by
  have hblk : ∀ j, j < 6 → j ≠ k → sugBlock j q docsq = sugBlock j p docs := by
    intro j hj hjk
    exact sugBlock_congr (hothers j hj hjk).1 (hothers j hj hjk).2
  have hbk : sugBlock k p docs = [] := by simp [sugBlock, hkoff]
  have hbk2 : sugBlock k q docsq = [sugStr k q] := by simp [sugBlock, hkon]
  rw [generateAISuggestions_eq p docs, generateAISuggestions_eq q docsq, if_neg hfired]
  interval_cases k
  · refine ⟨[], sugBlock 1 p docs ++ sugBlock 2 p docs ++ sugBlock 3 p docs ++
      sugBlock 4 p docs ++ sugBlock 5 p docs, ?_, ?_⟩
    · unfold sugBlocks
      rw [hbk]
      simp
    · have hq : sugBlocks q docsq = [sugStr 0 q] ++ sugBlock 1 p docs ++
          sugBlock 2 p docs ++ sugBlock 3 p docs ++ sugBlock 4 p docs ++
          sugBlock 5 p docs := by
        unfold sugBlocks
        rw [hbk2, hblk 1 (by omega) (by omega), hblk 2 (by omega) (by omega),
          hblk 3 (by omega) (by omega), hblk 4 (by omega) (by omega),
          hblk 5 (by omega) (by omega)]
      rw [hq, if_neg (by simp)]
      simp
  · refine ⟨sugBlock 0 p docs, sugBlock 2 p docs ++ sugBlock 3 p docs ++
      sugBlock 4 p docs ++ sugBlock 5 p docs, ?_, ?_⟩
    · unfold sugBlocks
      rw [hbk]
      simp
    · have hq : sugBlocks q docsq = sugBlock 0 p docs ++ [sugStr 1 q] ++
          sugBlock 2 p docs ++ sugBlock 3 p docs ++ sugBlock 4 p docs ++
          sugBlock 5 p docs := by
        unfold sugBlocks
        rw [hbk2, hblk 0 (by omega) (by omega), hblk 2 (by omega) (by omega),
          hblk 3 (by omega) (by omega), hblk 4 (by omega) (by omega),
          hblk 5 (by omega) (by omega)]
      rw [hq, if_neg (by simp)]
      simp
  · refine ⟨sugBlock 0 p docs ++ sugBlock 1 p docs, sugBlock 3 p docs ++
      sugBlock 4 p docs ++ sugBlock 5 p docs, ?_, ?_⟩
    · unfold sugBlocks
      rw [hbk]
      simp
    · have hq : sugBlocks q docsq = sugBlock 0 p docs ++ sugBlock 1 p docs ++
          [sugStr 2 q] ++ sugBlock 3 p docs ++ sugBlock 4 p docs ++
          sugBlock 5 p docs := by
        unfold sugBlocks
        rw [hbk2, hblk 0 (by omega) (by omega), hblk 1 (by omega) (by omega),
          hblk 3 (by omega) (by omega), hblk 4 (by omega) (by omega),
          hblk 5 (by omega) (by omega)]
      rw [hq, if_neg (by simp)]
      simp
  · refine ⟨sugBlock 0 p docs ++ sugBlock 1 p docs ++ sugBlock 2 p docs,
      sugBlock 4 p docs ++ sugBlock 5 p docs, ?_, ?_⟩
    · unfold sugBlocks
      rw [hbk]
      simp
    · have hq : sugBlocks q docsq = sugBlock 0 p docs ++ sugBlock 1 p docs ++
          sugBlock 2 p docs ++ [sugStr 3 q] ++ sugBlock 4 p docs ++
          sugBlock 5 p docs := by
        unfold sugBlocks
        rw [hbk2, hblk 0 (by omega) (by omega), hblk 1 (by omega) (by omega),
          hblk 2 (by omega) (by omega), hblk 4 (by omega) (by omega),
          hblk 5 (by omega) (by omega)]
      rw [hq, if_neg (by simp)]
      simp
  · refine ⟨sugBlock 0 p docs ++ sugBlock 1 p docs ++ sugBlock 2 p docs ++
      sugBlock 3 p docs, sugBlock 5 p docs, ?_, ?_⟩
    · unfold sugBlocks
      rw [hbk]
      simp
    · have hq : sugBlocks q docsq = sugBlock 0 p docs ++ sugBlock 1 p docs ++
          sugBlock 2 p docs ++ sugBlock 3 p docs ++ [sugStr 4 q] ++
          sugBlock 5 p docs := by
        unfold sugBlocks
        rw [hbk2, hblk 0 (by omega) (by omega), hblk 1 (by omega) (by omega),
          hblk 2 (by omega) (by omega), hblk 3 (by omega) (by omega),
          hblk 5 (by omega) (by omega)]
      rw [hq, if_neg (by simp)]
      simp
  · refine ⟨sugBlock 0 p docs ++ sugBlock 1 p docs ++ sugBlock 2 p docs ++
      sugBlock 3 p docs ++ sugBlock 4 p docs, [], ?_, ?_⟩
    · unfold sugBlocks
      rw [hbk]
    · have hq : sugBlocks q docsq = sugBlock 0 p docs ++ sugBlock 1 p docs ++
          sugBlock 2 p docs ++ sugBlock 3 p docs ++ sugBlock 4 p docs ++
          [sugStr 5 q] := by
        unfold sugBlocks
        rw [hbk2, hblk 0 (by omega) (by omega), hblk 1 (by omega) (by omega),
          hblk 2 (by omega) (by omega), hblk 3 (by omega) (by omega),
          hblk 4 (by omega) (by omega)]
      rw [hq, if_neg (by simp)]

/-- Witness for C3 (amended): making rule 1 fire by setting the qualification
of an otherwise-empty profile to "bachelor" (which touches no other rule)
inserts rule 1's string ahead of the upload-syllabus suggestion. -/
theorem suggestions_single_rule_amended_witness :
    ∃ l1 l2,
      generateAISuggestions ⟨"", "", "", "", "", ""⟩ [] = l1 ++ l2 ∧
      generateAISuggestions ⟨"", "", "", "bachelor", "", ""⟩ [] =
        l1 ++ sugStr 0 ⟨"", "", "", "bachelor", "", ""⟩ :: l2 :=
  suggestions_single_rule_amended ⟨"", "", "", "", "", ""⟩
    ⟨"", "", "", "bachelor", "", ""⟩ [] [] 0 (by omega)
    (by
      intro j hj hjk
      interval_cases j
      · exact absurd rfl hjk
      · exact ⟨by decide, by decide⟩
      · exact ⟨by decide, by decide⟩
      · exact ⟨by decide, by decide⟩
      · exact ⟨by decide, by decide⟩
      · exact ⟨by decide, by decide⟩)
    (by decide) (by decide) (by decide)

lemma ws_not_upper {c : Char} (h : jsWs c = true) : upperDigit c = false := by
  unfold jsWs at h
  simp only [Bool.or_eq_true, beq_iff_eq, Bool.and_eq_true, decide_eq_true_eq] at h
  rcases h with
    (((((((((((((h | h) | h) | h) | h) | h) | h) | h) | ⟨h1, h2⟩) | h) | h) | h) | h) | h) | h
  all_goals try (subst h; decide)
  cases hu : upperDigit c
  · rfl
  · exfalso
    simp only [upperDigit, Bool.or_eq_true, Bool.and_eq_true, decide_eq_true_eq] at hu
    omega

lemma upper_not_ws {c : Char} (h : upperDigit c = true) : jsWs c = false := by
  cases hw : jsWs c
  · rfl
  · rw [ws_not_upper hw] at h
    exact absurd h (by simp)

lemma length_dropWhile_le {α : Type} (p : α → Bool) (l : List α) :
    (l.dropWhile p).length ≤ l.length := by
  induction l with
  | nil => simp [List.dropWhile]
  | cons a l ih =>
    rw [List.dropWhile_cons]
    by_cases h : p a = true
    · rw [if_pos h]
      exact Nat.le_trans ih (Nat.le_succ _)
    · rw [if_neg h]

lemma getLastD_reverse (l : List Char) (d : Char) : l.reverse.getLastD d = l.headD d := by
  cases l with
  | nil => rfl
  | cons a t => simp [List.reverse_cons, List.getLastD_concat]

lemma snoc_eq_append_cons {l : List Char} {x : Char} {a : List Char} {c : Char}
    {t : List Char} (h : l ++ [x] = a ++ c :: t) :
    (t = [] ∧ l = a ∧ c = x) ∨ ∃ t2, t = t2 ++ [x] ∧ l = a ++ c :: t2 := by
  rcases List.eq_nil_or_concat t with rfl | ⟨t2, y, rfl⟩
  · left
    obtain ⟨h3, h4⟩ := List.append_inj' h rfl
    exact ⟨rfl, h3, ((List.cons.inj h4).1).symm⟩
  · right
    simp only [List.concat_eq_append] at h ⊢
    have h2 : l ++ [x] = (a ++ c :: t2) ++ [y] := by
      rw [h]
      simp
    obtain ⟨h3, h4⟩ := List.append_inj' h2 rfl
    have hyx : y = x := ((List.cons.inj h4).1).symm
    subst hyx
    exact ⟨t2, rfl, h3⟩

lemma trailing_snoc {l : List Char} {x : Char} {a : List Char} {c : Char}
    {w : List Char} (h : l ++ [x] = a ++ c :: w) (hw : w ≠ []) :
    ∃ w2, w = w2 ++ [x] ∧ l = a ++ c :: w2 := by
  rcases snoc_eq_append_cons h with ⟨rfl, _, _⟩ | ⟨t2, ht, hl⟩
  · exact absurd rfl hw
  · exact ⟨t2, ht, hl⟩

lemma hasMatch_snoc {l : List Char} {x : Char} (h : HasMatch (l ++ [x])) :
    HasMatch l ∨ (upperDigit x = true ∧ ∃ a c w, l = a ++ c :: w ∧ sentEnd c = true ∧
      w ≠ [] ∧ ∀ y ∈ w, jsWs y = true) := by
  obtain ⟨a, c, w, u, b, heq, hc, hw, hwall, hu⟩ := h
  rcases List.eq_nil_or_concat b with rfl | ⟨b2, y, rfl⟩
  · right
    have h2 : l ++ [x] = (a ++ c :: w) ++ [u] := by
      rw [heq]
      simp
    obtain ⟨h3, h4⟩ := List.append_inj' h2 rfl
    have hx : x = u := (List.cons.inj h4).1
    exact ⟨hx ▸ hu, a, c, w, h3, hc, hw, hwall⟩
  · left
    rw [List.concat_eq_append] at heq
    have h2 : l ++ [x] = (a ++ c :: (w ++ u :: b2)) ++ [y] := by
      rw [heq]
      simp
    obtain ⟨h3, _⟩ := List.append_inj' h2 rfl
    exact ⟨a, c, w, u, b2, h3, hc, hw, hwall, hu⟩

lemma noMatch_nil : ¬ HasMatch [] := by
  rintro ⟨a, c, w, u, b, heq, -, -, -, -⟩
  simp at heq

lemma pend_nil (input : List Char) : Pend [] input := by
  intro a c w h
  simp at h

lemma pend_step {acc : List Char} {c : Char} {rest : List Char}
    (hcond : (sentEnd (acc.headD ' ') && jsWs c &&
      upperDigit (((c :: rest).dropWhile jsWs).headD ' ')) = false)
    (hpend : Pend acc (c :: rest)) : Pend (c :: acc) rest := by
  intro a p w heq hp hw hwall
  rw [List.reverse_cons] at heq
  obtain ⟨w2, hw2, hl⟩ := trailing_snoc heq hw
  have hjc : jsWs c = true := by
    refine hwall c ?_
    rw [hw2]
    exact List.mem_append_right _ (List.mem_singleton.mpr rfl)
  have hdrop : (c :: rest).dropWhile jsWs = rest.dropWhile jsWs :=
    List.dropWhile_cons_of_pos hjc
  by_cases hw2nil : w2 = []
  · subst hw2nil
    have hacc : acc = p :: a.reverse := by
      have h2 := congrArg List.reverse hl
      simpa using h2
    have hhead : acc.headD ' ' = p := by rw [hacc]; rfl
    rw [hhead, hp, hjc] at hcond
    simp only [Bool.true_and] at hcond
    rw [hdrop] at hcond
    exact hcond
  · have h2 := hpend a p w2 hl hp hw2nil (fun x hx => hwall x (by
      rw [hw2]
      exact List.mem_append_left _ hx))
    rw [hdrop] at h2
    exact h2

lemma noMatch_step {acc : List Char} {c : Char} {rest : List Char}
    (hnm : ¬ HasMatch acc.reverse) (hpend : Pend acc (c :: rest)) :
    ¬ HasMatch ((c :: acc).reverse) := by
  rw [List.reverse_cons]
  intro hm
  rcases hasMatch_snoc hm with hm2 | ⟨hux, a, p, w, hl, hp, hw, hwall⟩
  · exact hnm hm2
  · have hjc : jsWs c = false := upper_not_ws hux
    have hdrop : (c :: rest).dropWhile jsWs = c :: rest :=
      List.dropWhile_cons_of_neg (by simp [hjc])
    have h2 := hpend a p w hl hp hw hwall
    rw [hdrop, List.headD_cons, hux] at h2
    exact absurd h2 (by simp)

lemma splitAux_spec (fuel : Nat) :
    ∀ (input acc : List Char), input.length < fuel → ¬ HasMatch acc.reverse →
      Pend acc input → SplitSpec (acc.reverse ++ input) (splitAux fuel input acc) := by
  induction fuel with
  | zero =>
    intro input acc h _ _
    exact absurd h (Nat.not_lt_zero _)
  | succ f ih =>
    intro input acc hlen hnm hpend
    cases input with
    | nil =>
      rw [List.append_nil]
      exact SplitSpec.last acc.reverse hnm
    | cons c rest =>
      by_cases hcond : (sentEnd (acc.headD ' ') && jsWs c &&
          upperDigit (((c :: rest).dropWhile jsWs).headD ' ')) = true
      · have hsplit : splitAux (f + 1) (c :: rest) acc =
            acc.reverse :: splitAux f ((c :: rest).dropWhile jsWs) [] := by
          simp only [splitAux]
          rw [if_pos hcond]
        rw [hsplit]
        obtain ⟨⟨hse, hjw⟩, hup⟩ : (sentEnd (acc.headD ' ') = true ∧ jsWs c = true) ∧
            upperDigit (((c :: rest).dropWhile jsWs).headD ' ') = true := by
          simpa [Bool.and_eq_true] using hcond
        have haccne : acc ≠ [] := by
          intro h
          rw [h] at hse
          exact absurd hse (by decide)
        have hfne : acc.reverse ≠ [] := by simpa using haccne
        have hlast : sentEnd (acc.reverse.getLastD ' ') = true := by
          rw [getLastD_reverse]
          exact hse
        have htne : (c :: rest).takeWhile jsWs ≠ [] := by
          rw [List.takeWhile_cons_of_pos hjw]
          simp
        have htall : ∀ x ∈ (c :: rest).takeWhile jsWs, jsWs x = true := by
          intro x hx
          exact List.all_eq_true.mp (List.all_takeWhile (l := c :: rest)) x hx
        have hlen2 : ((c :: rest).dropWhile jsWs).length < f := by
          rw [List.dropWhile_cons_of_pos hjw]
          have h2 := length_dropWhile_le jsWs rest
          simp only [List.length_cons] at hlen
          omega
        have hrec := ih ((c :: rest).dropWhile jsWs) [] hlen2 noMatch_nil (pend_nil _)
        simp only [List.reverse_nil, List.nil_append] at hrec
        have hdecomp : acc.reverse ++ (c :: rest) = acc.reverse ++
            ((c :: rest).takeWhile jsWs ++ (c :: rest).dropWhile jsWs) := by
          rw [List.takeWhile_append_dropWhile]
        rw [hdecomp]
        exact SplitSpec.step acc.reverse _ _ _ hfne hlast hnm htne htall hup hrec
      · have hcond2 : (sentEnd (acc.headD ' ') && jsWs c &&
            upperDigit (((c :: rest).dropWhile jsWs).headD ' ')) = false :=
          Bool.not_eq_true _ ▸ eq_false_of_ne_true hcond
        have hstep : splitAux (f + 1) (c :: rest) acc = splitAux f rest (c :: acc) := by
          simp only [splitAux]
          rw [if_neg hcond]
        rw [hstep]
        have hlen2 : rest.length < f := by
          simp only [List.length_cons] at hlen
          omega
        have hrec := ih rest (c :: acc) hlen2 (noMatch_step hnm hpend)
          (pend_step hcond2 hpend)
        rw [List.reverse_cons, List.append_assoc] at hrec
        simpa using hrec

/-- C5: `extractSentences` splits exactly at the boundaries where a
sentence-ending `[.?!]` is followed by whitespace whose first non-whitespace
successor is an upper-case letter or digit (the matches of
`/(?<=[.?!])\s+(?=[A-Z0-9])/`, expressed by `SplitSpec`): the fragments plus
the dropped whitespace delimiters rebuild the newline-normalized input, every
delimiter is such a boundary, and no fragment contains one; the pipeline then
maps `trim` over the fragments and drops empty ones; and the spec's example
splits as stated. -/
theorem extractSentences_splits_at_boundaries :
    (∀ cs : List Char, SplitSpec cs (splitRaw cs)) ∧
    (∀ text : String, extractSentences text =
      ((splitRaw (normalizeNl text.data)).map (fun f => String.mk (trimChars f))).filter
        (fun s => !(s == ""))) ∧
    extractSentences "Hello world. This Is Fine! Next one?" =
      ["Hello world.", "This Is Fine!", "Next one?"] := by
  refine ⟨?_, ?_, by decide⟩
  · intro cs
    have h := splitAux_spec (cs.length + 1) cs [] (by omega) noMatch_nil (pend_nil cs)
    simpa [splitRaw] using h
  · intro text
    by_cases h : text = ""
    · subst h
      decide
    · unfold extractSentences
      rw [if_neg (by simpa using h)]

end StudyCompanion
